import Mathlib

/-
Verification of `convert_health_data.py`: a shallow embedding of the
multi-format Apple Health ingestion pipeline (attribute-XML parser,
HL7 clinical-document parser, ECG session-metadata parser, shared
dedup state, date normalizer, sort and CSV projection), together with
theorems about its deduplication, counting, ordering and error
behaviour.

Strings are modelled as Lean `String` (a list of unicode scalar
values, matching Python `str` as a sequence of code points); Python
`None` is modelled as `Option.none`.
-/

namespace Health

/-- Observation-type allow-list: the `TARGET_TYPES` set literal at the top of
`convert_health_data.py`.  Only membership is ever used, so a list models the
Python set faithfully. -/
def TARGET_TYPES : List String :=
  [ "HKQuantityTypeIdentifierStepCount"
  , "HKQuantityTypeIdentifierActiveEnergyBurned"
  , "HKQuantityTypeIdentifierHeartRate"
  , "HKQuantityTypeIdentifierRestingHeartRate"
  , "HKQuantityTypeIdentifierHeartRateVariabilitySDNN"
  , "HKCategoryTypeIdentifierSleepAnalysis"
  , "HKQuantityTypeIdentifierBodyMass"
  , "HKQuantityTypeIdentifierBodyFatPercentage"
  , "HKQuantityTypeIdentifierVO2Max"
  , "HKQuantityTypeIdentifierRespiratoryRate"
  , "HKCategoryTypeIdentifierAppleStandHour"
  ]

/-- Normalized observation record: the dict
`{'creationDate': .., 'startDate': .., 'endDate': .., 'type': .., 'value': ..}`
appended to `records` by every parser.  The four date/type fields are always
Python `str`; `value` can be Python `None` in the clinical-document parser
(`value_elem.text` is `None` for an empty element), hence `Option String`. -/
structure Record where
  creationDate : String
  startDate : String
  endDate : String
  type : String
  value : Option String
deriving DecidableEq, Repr

/-- Identity key: the 5-tuple
`(creation_date, start_date, end_date, record_type, value)` tested against
`seen_keys` before every append. -/
def RecKey : Type := String × String × String × String × Option String

instance : DecidableEq RecKey := by
  unfold RecKey
  infer_instance

/-- Key of a record, in the component order used at all three insertion
sites of the source. -/
def Record.key (r : Record) : RecKey :=
  (r.creationDate, r.startDate, r.endDate, r.type, r.value)

/-- Shared mutable state threaded through the parsers: the ordered
`records` list and the `seen_keys` set.  The Python set is modelled as the
list of keys in (reverse) insertion order; only membership and insertion are
used. -/
structure PState where
  records : List Record
  seen : List RecKey
deriving DecidableEq

/-- Check-then-insert step shared (inlined) by all insertion sites:
`if key not in seen_keys: seen_keys.add(key); records.append({...}); count += 1`.
Returns the state together with the number of records added (0 or 1). -/
def tryInsert (st : PState) (r : Record) : PState × Nat :=
  if r.key ∈ st.seen then (st, 0)
  else (⟨st.records ++ [r], r.key :: st.seen⟩, 1)

/-! ### Date normalizer (`format_cda_date`) -/

/-- Numeric value of a decimal digit character. -/
def charDigit (c : Char) : Nat := c.toNat - 48

/-- Numeric value of a string of decimal digits. -/
def natOfDigits (l : List Char) : Nat := l.foldl (fun n c => 10 * n + charDigit c) 0

/-- Gregorian leap-year rule used by Python `datetime`. -/
def isLeapYear (y : Nat) : Bool :=
  y % 4 == 0 && (y % 100 != 0 || y % 400 == 0)

/-- Number of days in a month, as validated by the `datetime` constructor. -/
def daysInMonth (y m : Nat) : Nat :=
  if m == 2 then (if isLeapYear y then 29 else 28)
  else if m == 4 || m == 6 || m == 9 || m == 11 then 30
  else 31

/-- Python string length (number of code points). -/
def strLen (s : String) : Nat := s.data.length

/-- Python slice `s[:n]`. -/
def strTake (s : String) (n : Nat) : String := ⟨s.data.take n⟩

/-- Python slice `s[n:]`. -/
def strDrop (s : String) (n : Nat) : String := ⟨s.data.drop n⟩

/-- Success predicate of `datetime.strptime(base, '%Y%m%d%H%M%S')` on the
14-character slice `base`.  CPython compiles the format to the regex
`\d{4}` for `%Y`, `1[0-2]|0[1-9]|[1-9]` for `%m`, `3[01]|[12]\d|0[1-9]|[1-9]`
for `%d`, `2[0-3]|[0-1]\d|\d` for `%H`, `[0-5]\d|\d` for `%M` and
`6[0-1]|[0-5]\d|\d` for `%S`, and raises `ValueError` unless the regex
consumes the whole string.  The maximal widths `4+2+2+2+2+2` sum to exactly
14, so a full match forces every field to its two-digit alternative; the
subsequent `datetime` construction additionally requires `year >= 1`,
`day <= daysInMonth` and `second <= 59`.  Together: all characters are
digits, `year >= 1`, `1 <= month <= 12`, `1 <= day <= daysInMonth`,
`hour <= 23`, `minute <= 59`, `second <= 59`. -/
def validBase (base : String) : Bool :=
  let cs := base.data
  let year := natOfDigits (cs.take 4)
  let month := natOfDigits ((cs.drop 4).take 2)
  let day := natOfDigits ((cs.drop 6).take 2)
  let hour := natOfDigits ((cs.drop 8).take 2)
  let minute := natOfDigits ((cs.drop 10).take 2)
  let second := natOfDigits ((cs.drop 12).take 2)
  cs.length == 14 && cs.all Char.isDigit &&
  decide (1 ≤ year) && decide (1 ≤ month) && decide (month ≤ 12) &&
  decide (1 ≤ day) && decide (day ≤ daysInMonth year month) &&
  decide (hour ≤ 23) && decide (minute ≤ 59) && decide (second ≤ 59)

/-- Output of `dt.strftime('%Y-%m-%d %H:%M:%S')` for the datetime parsed from
`base`: each component is printed zero-padded to the same width it was
parsed from, so the digit substrings of `base` reappear verbatim. -/
def formatBase (base : String) : String :=
  strTake base 4 ++ "-" ++ strTake (strDrop base 4) 2 ++ "-" ++
  strTake (strDrop base 6) 2 ++ " " ++ strTake (strDrop base 8) 2 ++ ":" ++
  strTake (strDrop base 10) 2 ++ ":" ++ strTake (strDrop base 12) 2

/-- Embedding of `format_cda_date`: `if not date_str: return ''`; then inside
`try`, when `len(date_str) >= 14`, slice the 14-character base and the
timezone tail, normalize the base via `strptime`/`strftime` (appending the
tail after one space when non-empty); any `ValueError` (or a short input)
falls through to `return date_str`. -/
def format_cda_date (date_str : String) : String :=
  if date_str = "" then ""
  else if 14 ≤ strLen date_str then
    let base := strTake date_str 14
    let tz := if 14 < strLen date_str then strDrop date_str 14 else ""
    if validBase base then
      let formatted := formatBase base
      if tz ≠ "" then formatted ++ " " ++ tz else formatted
    else date_str
  else date_str

/-! ### Attribute-XML parser (`parse_export_xml`) -/

/-- One fully-read top-level element delivered by
`ET.iterparse(filepath, events=('end',))`: a tag and its attribute map
(attribute names are unique in XML, so an association list is faithful). -/
structure Elem where
  tag : String
  attrs : List (String × String)
deriving DecidableEq

/-- Python `elem.get(k)`: `None` when the attribute is absent. -/
def Elem.get? (e : Elem) (k : String) : Option String := e.attrs.lookup k

/-- Python `elem.get(k, d)`. -/
def Elem.getD (e : Elem) (k d : String) : String := (e.get? k).getD d

/-- Synthesized `value` of a `Workout` element: `duration`/`calories` parts
for truthy (non-empty) attributes, joined by `'; '`. -/
def workoutValue (e : Elem) : String :=
  let duration := e.getD "duration" ""
  let duration_unit := e.getD "durationUnit" "min"
  let total_energy := e.getD "totalEnergyBurned" ""
  let energy_unit := e.getD "totalEnergyBurnedUnit" "Cal"
  let value_parts : List String :=
    (if duration ≠ "" then ["duration:" ++ duration ++ " " ++ duration_unit] else []) ++
    (if total_energy ≠ "" then ["calories:" ++ total_energy ++ " " ++ energy_unit] else [])
  if value_parts = [] then "" else String.intercalate "; " value_parts

/-- Record built from a `Workout` element (never filtered by `TARGET_TYPES`;
its `type` is the `workoutActivityType` attribute, default `''`). -/
def workoutRecord (e : Elem) : Record :=
  ⟨e.getD "creationDate" "", e.getD "startDate" "", e.getD "endDate" "",
   e.getD "workoutActivityType" "", some (workoutValue e)⟩

/-- Body of the `for event, elem in context` loop of `parse_export_xml`:
a `Record` element is kept only when `elem.get('type')` is in
`TARGET_TYPES` (Python `None in TARGET_TYPES` is false), a `Workout`
element is always submitted to the dedup check; all other tags are
ignored. -/
def processExportElem (st : PState) (e : Elem) : PState × Nat :=
  if e.tag = "Record" then
    match e.get? "type" with
    | some record_type =>
      if record_type ∈ TARGET_TYPES then
        tryInsert st ⟨e.getD "creationDate" "", e.getD "startDate" "",
                      e.getD "endDate" "", record_type, some (e.getD "value" "")⟩
      else (st, 0)
    | none => (st, 0)
  else if e.tag = "Workout" then
    tryInsert st (workoutRecord e)
  else (st, 0)

/-- Sequential loop over a stream of elements accumulating the running
`count`; shared shape of `parse_export_xml` and `parse_ecg_files`. -/
def foldP (f : PState → α → PState × Nat) (st : PState) (n : Nat) : List α → PState × Nat
  | [] => (st, n)
  | a :: rest => foldP f (f st a).1 (n + (f st a).2) rest

/-- `parse_export_xml(filepath, records, seen_keys)`, with the element
stream of the file as input; returns the final state and the returned
`count`. -/
def parse_export_xml (elems : List Elem) (st : PState) : PState × Nat :=
  foldP processExportElem st 0 elems

/-! ### Clinical-document parser (`parse_export_cda_xml`) -/

/-- The `text` child of an observation: presence of the `cda:type` and
`cda:value` children, each with its `.text` content (`none` for an element
with empty content, as in Python). -/
structure CdaText where
  type : Option (Option String)
  value : Option (Option String)
deriving DecidableEq

/-- The `effectiveTime` child: presence of `cda:low` / `cda:high`, each with
its optional `value` attribute. -/
structure CdaTime where
  low : Option (Option String)
  high : Option (Option String)
deriving DecidableEq

/-- One `{urn:hl7-org:v3}observation` element as inspected by the parser. -/
structure CdaObs where
  text : Option CdaText
  effectiveTime : Option CdaTime
deriving DecidableEq

/-- Date of a `low`/`high` child: `format_cda_date(x.get('value', ''))` when
the child exists, `''` otherwise (the initialisation of
`start_date`/`end_date`). -/
def cdaDate (x : Option (Option String)) : String :=
  match x with
  | some attr => format_cda_date (attr.getD "")
  | none => ""

/-- The `start_date` of an observation: `''` unless an `effectiveTime`
child with a `low` child is present. -/
def cdaStart (et : Option CdaTime) : String :=
  match et with
  | some e0 => cdaDate e0.low
  | none => ""

/-- The `end_date` of an observation: `''` unless an `effectiveTime` child
with a `high` child is present. -/
def cdaEnd (et : Option CdaTime) : String :=
  match et with
  | some e0 => cdaDate e0.high
  | none => ""

/-- Record that an observation contributes, if any: requires a `text` child
whose `type` child has text in `TARGET_TYPES`; `value` is the `.text` of the
`value` child (possibly Python `None`) or `''` when that child is absent;
`start_date`/`end_date` come from `effectiveTime`, and
`creation_date = start_date`. -/
def cdaCandidate (o : CdaObs) : Option Record :=
  match o.text with
  | none => none
  | some txt =>
    match txt.type with
    | some (some record_type) =>
      if record_type ∈ TARGET_TYPES then
        let value : Option String :=
          match txt.value with
          | some vtext => vtext
          | none => some ""
        let start_date := cdaStart o.effectiveTime
        let end_date := cdaEnd o.effectiveTime
        some ⟨start_date, start_date, end_date, record_type, value⟩
      else none
    | some none => none
    | none => none

/-- Loop body for one observation: dedup-insert its candidate record, if
any. -/
def processCdaObs (st : PState) (o : CdaObs) : PState × Nat :=
  match cdaCandidate o with
  | some r => tryInsert st r
  | none => (st, 0)

/-- Events delivered by `ET.iterparse` on the clinical document: observation
elements (other tags are ignored by the loop), or the `ET.ParseError` raised
by the underlying parser on malformed XML. -/
inductive CdaEvent where
  | obs (o : CdaObs)
  | parseFail
deriving DecidableEq

/-- The `try`-wrapped scan loop of `parse_export_cda_xml`: a `ParseError`
aborts the loop (the `except` clause logs a warning) and the accumulated
count is returned; everything inserted so far stays in `records`. -/
def runCda (st : PState) (n : Nat) : List CdaEvent → PState × Nat
  | [] => (st, n)
  | CdaEvent.parseFail :: _ => (st, n)
  | CdaEvent.obs o :: rest => runCda (processCdaObs st o).1 (n + (processCdaObs st o).2) rest

/-- `parse_export_cda_xml(filepath, records, seen_keys)` over the event
stream of the file. -/
def parse_export_cda_xml (events : List CdaEvent) (st : PState) : PState × Nat :=
  runCda st 0 events

/-! ### Session-metadata parser (`parse_ecg_files`) -/

/-- One `ecg_*.csv` file: its lines, plus a flag modelling an I/O exception
while opening/reading it (caught by the per-file `except`). -/
structure EcgFile where
  lines : List String
  fails : Bool
deriving DecidableEq

/-- Python `line.split(',', 1)` for a line containing a comma: the part
before the first comma and everything after it. -/
def split1 (s : String) : String × String :=
  (⟨s.data.takeWhile (fun c => c != ',')⟩, ⟨(s.data.dropWhile (fun c => c != ',')).drop 1⟩)

/-- Python `s.strip()`: remove leading and trailing whitespace. -/
def strTrim (s : String) : String :=
  ⟨((s.data.dropWhile Char.isWhitespace).reverse.dropWhile Char.isWhitespace).reverse⟩

/-- Python `s.strip('"')`: remove all leading and trailing quote characters. -/
def stripQuotes (s : String) : String :=
  ⟨((s.data.dropWhile (fun c => c == '"')).reverse.dropWhile (fun c => c == '"')).reverse⟩

/-- Python `',' in line`. -/
def hasComma (s : String) : Bool := s.data.any (fun c => c == ',')

/-- The metadata dict built from the first 11 lines (`if i >= 10: break`
runs after appending line 10): each stripped line containing a comma is
split once, and `metadata[key.strip()] = value.strip().strip('"')`
(`len(parts) == 2` always holds when a comma is present).  The dict is an
association list where the most recent write is found first. -/
def ecgMetadata (f : EcgFile) : List (String × String) :=
  ((f.lines.take 11).map strTrim).foldl
    (fun m line =>
      if hasComma line then
        let p := split1 line
        (strTrim p.1, stripQuotes (strTrim p.2)) :: m
      else m) []

/-- Python `metadata.get(k, '')`. -/
def dictGet (m : List (String × String)) (k : String) : String :=
  (m.lookup k).getD ""

/-- Per-file body of `parse_ecg_files`: a failing file is logged and
skipped; otherwise, when the extracted `Recorded Date` is truthy, a record
`(d, d, d, 'ECG', classification)` goes through the shared dedup path. -/
def processEcgFile (st : PState) (f : EcgFile) : PState × Nat :=
  if f.fails then (st, 0)
  else
    let recorded_date := dictGet (ecgMetadata f) "Recorded Date"
    let classification := dictGet (ecgMetadata f) "Classification"
    if recorded_date ≠ "" then
      tryInsert st ⟨recorded_date, recorded_date, recorded_date, "ECG", some classification⟩
    else (st, 0)

/-- `parse_ecg_files(ecg_dir, records, seen_keys)` over the matched files. -/
def parse_ecg_files (files : List EcgFile) (st : PState) : PState × Nat :=
  foldP processEcgFile st 0 files

/-! ### Pipeline driver (`main`) and CSV output -/

/-- The three optional sources discovered by `main` (`none` models the
`os.path.exists` check failing, in which case the parser is not called). -/
structure PipelineInput where
  xml : Option (List Elem)
  cda : Option (List CdaEvent)
  ecg : Option (List EcgFile)

/-- Result of a run: the sorted rows and the three per-parser counts
accumulated into `total_count`. -/
structure MainOutput where
  rows : List Record
  xmlCount : Nat
  cdaCount : Nat
  ecgCount : Nat

/-- Comparison used by `records.sort(key=lambda x: x['startDate'])`:
lexicographic order on the `startDate` strings. -/
def startLe (a b : Record) : Bool := decide (a.startDate ≤ b.startDate)

/-- One `if os.path.exists(..): total_count += parse_..(..)` block of `main`:
an absent source leaves the state alone and contributes zero records. -/
def runSource (st : PState) (run : α → PState → PState × Nat) : Option α → PState × Nat
  | some x => run x st
  | none => (st, 0)

/-- State and count after the `export.xml` block (shared state starts as
`records = []`, `seen_keys = set()`). -/
def stage1 (inp : PipelineInput) : PState × Nat :=
  runSource ⟨[], []⟩ parse_export_xml inp.xml

/-- State and count after the `export_cda.xml` block. -/
def stage2 (inp : PipelineInput) : PState × Nat :=
  runSource (stage1 inp).1 parse_export_cda_xml inp.cda

/-- State and count after the `electrocardiograms` block. -/
def stage3 (inp : PipelineInput) : PState × Nat :=
  runSource (stage2 inp).1 parse_ecg_files inp.ecg

/-- Embedding of `main`: run the three parsers in order against one shared
state, then sort the merged records by `startDate`
(`records.sort(key=lambda x: x['startDate'])`; Python `list.sort` is a
stable merge sort). -/
def mainRun (inp : PipelineInput) : MainOutput :=
  ⟨List.mergeSort (stage3 inp).1.records startLe, (stage1 inp).2, (stage2 inp).2, (stage3 inp).2⟩

/-- Does `csv` quote this field under `QUOTE_MINIMAL`? -/
def csvNeedsQuote (s : String) : Bool :=
  s.data.any (fun c => c == ',' || c == '"' || c == '\n' || c == '\r')

/-- Quote-escaping of `csv`: every quote character is doubled. -/
def escapeQuotes (s : String) : String :=
  ⟨s.data.foldr (fun c acc => if c == '"' then '"' :: '"' :: acc else c :: acc) []⟩

/-- One CSV field for a `str` value: quoted with doubled quotes when needed. -/
def csvField (s : String) : String :=
  if csvNeedsQuote s then "\"" ++ escapeQuotes s ++ "\"" else s

/-- One CSV field for a record value; `csv.writer` serializes Python `None`
as an empty field. -/
def csvCell : Option String → String
  | some s => csvField s
  | none => ""

/-- One output row of `csv.DictWriter`, fields in the fixed
`fieldnames` order. -/
def recordRow (r : Record) : String :=
  String.intercalate ","
    [csvField r.creationDate, csvField r.startDate, csvField r.endDate,
     csvField r.type, csvCell r.value]

/-- The written file: header row, then one row per record. -/
def outputCsv (rows : List Record) : List String :=
  "creationDate,startDate,endDate,type,value" :: rows.map recordRow

/-! ### Invariants and spec-comparison definitions -/

/-- The dedup index mirrors the records collection: `seen_keys` holds
exactly the keys of `records`, in reverse insertion order. -/
abbrev SeenInv (st : PState) : Prop :=
  st.seen = (st.records.map Record.key).reverse

/-- No two records in the collection share an identity key. -/
abbrev KeysNodup (st : PState) : Prop :=
  (st.records.map Record.key).Nodup

/-- Combined state invariant established at every point of a run. -/
abbrev StInv (st : PState) : Prop :=
  SeenInv st ∧ KeysNodup st

/-- A loop body is sound when it either leaves the state untouched with a
zero count or routes one record through the shared dedup insert. -/
def StepSound (f : PState → α → PState × Nat) : Prop :=
  ∀ st a, f st a = (st, 0) ∨ ∃ r, f st a = tryInsert st r

/-- Restates the workout-value sentence of the spec literally: a part is
emitted whenever the corresponding attribute is present, whatever its
value.  For comparison with `workoutValue`. -/
def specWorkoutValueLiteral (e : Elem) : String :=
  let value_parts : List String :=
    (match e.get? "duration" with
     | some d => ["duration:" ++ d ++ " " ++ e.getD "durationUnit" "min"]
     | none => []) ++
    (match e.get? "totalEnergyBurned" with
     | some en => ["calories:" ++ en ++ " " ++ e.getD "totalEnergyBurnedUnit" "Cal"]
     | none => [])
  if value_parts = [] then "" else String.intercalate "; " value_parts

/-- The workout-value sentence amended: a part is emitted only when the
corresponding attribute is present with a non-empty value. -/
def specWorkoutValueAmended (e : Elem) : String :=
  let value_parts : List String :=
    (match e.get? "duration" with
     | some d => if d ≠ "" then ["duration:" ++ d ++ " " ++ e.getD "durationUnit" "min"] else []
     | none => []) ++
    (match e.get? "totalEnergyBurned" with
     | some en => if en ≠ "" then ["calories:" ++ en ++ " " ++ e.getD "totalEnergyBurnedUnit" "Cal"] else []
     | none => [])
  if value_parts = [] then "" else String.intercalate "; " value_parts

/-! ### Sanity checks of the date normalizer -/

example : format_cda_date "20230615143000" = "2023-06-15 14:30:00" := by decide
example : format_cda_date "20230615143000-0500" = "2023-06-15 14:30:00 -0500" := by decide
example : format_cda_date "" = "" := by decide
example : format_cda_date "2023" = "2023" := by decide
example : format_cda_date "20230231120000" = "20230231120000" := by decide

/-! ### Helper lemmas -/

theorem tryInsert_records_length (st : PState) (r : Record) :
    (tryInsert st r).1.records.length = st.records.length + (tryInsert st r).2 := by
  unfold tryInsert
  split <;> simp

theorem tryInsert_extend (st : PState) (r : Record) :
    ∃ t, (tryInsert st r).1.records = st.records ++ t ∧ (tryInsert st r).2 = t.length := by
  unfold tryInsert
  split
  · exact ⟨[], by simp⟩
  · exact ⟨[r], by simp⟩

theorem tryInsert_seenInv (st : PState) (r : Record) (hs : SeenInv st) :
    SeenInv (tryInsert st r).1 := by
  by_cases hk : r.key ∈ st.seen
  · simpa [tryInsert, hk] using hs
  · simp only [tryInsert, if_neg hk]
    show r.key :: st.seen = ((st.records ++ [r]).map Record.key).reverse
    simp [hs]

theorem tryInsert_inv (st : PState) (r : Record) (h : StInv st) :
    StInv (tryInsert st r).1 := by
  obtain ⟨hs, hn⟩ := h
  refine ⟨tryInsert_seenInv st r hs, ?_⟩
  by_cases hk : r.key ∈ st.seen
  · simpa [tryInsert, hk] using hn
  · have hk2 : r.key ∉ st.records.map Record.key := by
      rw [hs] at hk
      simpa using hk
    simp [tryInsert, hk, KeysNodup, List.nodup_append, hn, hk2]

theorem stepSound_processExportElem : StepSound processExportElem := by
  intro st e
  by_cases hR : e.tag = "Record"
  · cases hg : e.get? "type" with
    | none => exact Or.inl (by simp [processExportElem, hR, hg])
    | some record_type =>
      by_cases ht : record_type ∈ TARGET_TYPES
      · exact Or.inr ⟨⟨e.getD "creationDate" "", e.getD "startDate" "", e.getD "endDate" "",
          record_type, some (e.getD "value" "")⟩, by simp [processExportElem, hR, hg, ht]⟩
      · exact Or.inl (by simp [processExportElem, hR, hg, ht])
  · by_cases hW : e.tag = "Workout"
    · exact Or.inr ⟨workoutRecord e, by simp [processExportElem, hR, hW]⟩
    · exact Or.inl (by simp [processExportElem, hR, hW])

theorem stepSound_processCdaObs : StepSound processCdaObs := by
  intro st o
  unfold processCdaObs
  cases cdaCandidate o with
  | none => exact Or.inl rfl
  | some r => exact Or.inr ⟨r, rfl⟩

theorem stepSound_processEcgFile : StepSound processEcgFile := by
  intro st f
  by_cases hf : f.fails = true
  · exact Or.inl (by simp [processEcgFile, hf])
  · by_cases hd : dictGet (ecgMetadata f) "Recorded Date" ≠ ""
    · exact Or.inr ⟨⟨dictGet (ecgMetadata f) "Recorded Date", dictGet (ecgMetadata f) "Recorded Date",
        dictGet (ecgMetadata f) "Recorded Date", "ECG", some (dictGet (ecgMetadata f) "Classification")⟩,
        by simp [processEcgFile, hf, hd]⟩
    · exact Or.inl (by simp [processEcgFile, hf, hd])

theorem step_records_length {f : PState → α → PState × Nat} (hf : StepSound f)
    (st : PState) (a : α) :
    (f st a).1.records.length = st.records.length + (f st a).2 := by
  rcases hf st a with h | ⟨r, h⟩ <;> rw [h]
  · simp
  · exact tryInsert_records_length st r

theorem step_extend {f : PState → α → PState × Nat} (hf : StepSound f)
    (st : PState) (a : α) :
    ∃ t, (f st a).1.records = st.records ++ t ∧ (f st a).2 = t.length := by
  rcases hf st a with h | ⟨r, h⟩ <;> rw [h]
  · exact ⟨[], by simp⟩
  · exact tryInsert_extend st r

theorem step_seenInv {f : PState → α → PState × Nat} (hf : StepSound f)
    (st : PState) (a : α) (hs : SeenInv st) : SeenInv (f st a).1 := by
  rcases hf st a with h | ⟨r, h⟩ <;> rw [h]
  · exact hs
  · exact tryInsert_seenInv st r hs

theorem step_inv {f : PState → α → PState × Nat} (hf : StepSound f)
    (st : PState) (a : α) (h : StInv st) : StInv (f st a).1 := by
  rcases hf st a with he | ⟨r, he⟩ <;> rw [he]
  · exact h
  · exact tryInsert_inv st r h

theorem foldP_records_length {f : PState → α → PState × Nat} (hf : StepSound f) :
    ∀ (l : List α) (st : PState) (n : Nat),
      (foldP f st n l).1.records.length + n = st.records.length + (foldP f st n l).2
  | [], st, n => by simp [foldP]
  | a :: rest, st, n => by
    have h1 := step_records_length hf st a
    have h2 := foldP_records_length hf rest (f st a).1 (n + (f st a).2)
    simp only [foldP]
    omega

theorem foldP_extend {f : PState → α → PState × Nat} (hf : StepSound f) :
    ∀ (l : List α) (st : PState) (n : Nat),
      ∃ t, (foldP f st n l).1.records = st.records ++ t ∧ (foldP f st n l).2 = n + t.length
  | [], st, n => ⟨[], by simp [foldP]⟩
  | a :: rest, st, n => by
    obtain ⟨t1, ht1, hc1⟩ := step_extend hf st a
    obtain ⟨t2, ht2, hc2⟩ := foldP_extend hf rest (f st a).1 (n + (f st a).2)
    refine ⟨t1 ++ t2, ?_, ?_⟩
    · simp only [foldP, ht2, ht1, List.append_assoc]
    · simp only [foldP, List.length_append]
      rw [hc2, hc1]
      omega

theorem foldP_inv {f : PState → α → PState × Nat} (hf : StepSound f) :
    ∀ (l : List α) (st : PState) (n : Nat), StInv st → StInv (foldP f st n l).1
  | [], _, _, h => h
  | a :: rest, st, n, h =>
    foldP_inv hf rest (f st a).1 (n + (f st a).2) (step_inv hf st a h)

theorem runCda_records_length :
    ∀ (events : List CdaEvent) (st : PState) (n : Nat),
      (runCda st n events).1.records.length + n = st.records.length + (runCda st n events).2
  | [], st, n => by simp [runCda]
  | CdaEvent.parseFail :: _, st, n => by simp [runCda]
  | CdaEvent.obs o :: rest, st, n => by
    have h1 := step_records_length stepSound_processCdaObs st o
    have h2 := runCda_records_length rest (processCdaObs st o).1 (n + (processCdaObs st o).2)
    simp only [runCda]
    omega

theorem runCda_extend :
    ∀ (events : List CdaEvent) (st : PState) (n : Nat),
      ∃ t, (runCda st n events).1.records = st.records ++ t ∧
        (runCda st n events).2 = n + t.length
  | [], st, n => ⟨[], by simp [runCda]⟩
  | CdaEvent.parseFail :: _, st, n => ⟨[], by simp [runCda]⟩
  | CdaEvent.obs o :: rest, st, n => by
    obtain ⟨t1, ht1, hc1⟩ := step_extend stepSound_processCdaObs st o
    obtain ⟨t2, ht2, hc2⟩ := runCda_extend rest (processCdaObs st o).1 (n + (processCdaObs st o).2)
    refine ⟨t1 ++ t2, ?_, ?_⟩
    · simp only [runCda, ht2, ht1, List.append_assoc]
    · simp only [runCda, List.length_append]
      rw [hc2, hc1]
      omega

theorem runCda_inv :
    ∀ (events : List CdaEvent) (st : PState) (n : Nat), StInv st → StInv (runCda st n events).1
  | [], _, _, h => h
  | CdaEvent.parseFail :: _, _, _, h => h
  | CdaEvent.obs o :: rest, st, n, h =>
    runCda_inv rest (processCdaObs st o).1 (n + (processCdaObs st o).2)
      (step_inv stepSound_processCdaObs st o h)

theorem runCda_cut :
    ∀ (events : List CdaEvent) (st : PState) (n : Nat) (junk : List CdaEvent),
      runCda st n (events ++ CdaEvent.parseFail :: junk) = runCda st n events
  | [], st, n, junk => by simp [runCda]
  | CdaEvent.parseFail :: rest, st, n, junk => by simp [runCda]
  | CdaEvent.obs o :: rest, st, n, junk => by
    simp only [List.cons_append, runCda]
    exact runCda_cut rest _ _ junk

theorem parse_export_xml_records_length (elems : List Elem) (st : PState) :
    (parse_export_xml elems st).1.records.length
      = st.records.length + (parse_export_xml elems st).2 := by
  have h := foldP_records_length stepSound_processExportElem elems st 0
  simpa [parse_export_xml] using h

theorem parse_export_cda_xml_records_length (events : List CdaEvent) (st : PState) :
    (parse_export_cda_xml events st).1.records.length
      = st.records.length + (parse_export_cda_xml events st).2 := by
  have h := runCda_records_length events st 0
  simpa [parse_export_cda_xml] using h

theorem parse_ecg_files_records_length (files : List EcgFile) (st : PState) :
    (parse_ecg_files files st).1.records.length
      = st.records.length + (parse_ecg_files files st).2 := by
  have h := foldP_records_length stepSound_processEcgFile files st 0
  simpa [parse_ecg_files] using h

theorem runSource_records_length {α : Type} (st : PState)
    (run : α → PState → PState × Nat)
    (hrun : ∀ (x : α) (st : PState),
      (run x st).1.records.length = st.records.length + (run x st).2) :
    ∀ x? : Option α,
      (runSource st run x?).1.records.length
        = st.records.length + (runSource st run x?).2
  | some x => hrun x st
  | none => by simp [runSource]

theorem runSource_inv {α : Type} (st : PState)
    (run : α → PState → PState × Nat)
    (hrun : ∀ (x : α) (st : PState), StInv st → StInv (run x st).1)
    (h : StInv st) : ∀ x? : Option α, StInv (runSource st run x?).1
  | some x => hrun x st h
  | none => h

theorem stInv_start : StInv (⟨[], []⟩ : PState) := ⟨rfl, List.nodup_nil⟩

theorem stage3_inv (inp : PipelineInput) : StInv (stage3 inp).1 := by
  have h1 : StInv (stage1 inp).1 :=
    runSource_inv _ _ (fun x st h => foldP_inv stepSound_processExportElem x st 0 h)
      stInv_start inp.xml
  have h2 : StInv (stage2 inp).1 :=
    runSource_inv _ _ (fun x st h => runCda_inv x st 0 h) h1 inp.cda
  exact runSource_inv _ _ (fun x st h => foldP_inv stepSound_processEcgFile x st 0 h) h2 inp.ecg

theorem stage3_records_length (inp : PipelineInput) :
    (stage3 inp).1.records.length = (stage1 inp).2 + (stage2 inp).2 + (stage3 inp).2 := by
  have h1 := runSource_records_length (⟨[], []⟩ : PState) parse_export_xml
    parse_export_xml_records_length inp.xml
  have h2 := runSource_records_length (stage1 inp).1 parse_export_cda_xml
    parse_export_cda_xml_records_length inp.cda
  have h3 := runSource_records_length (stage2 inp).1 parse_ecg_files
    parse_ecg_files_records_length inp.ecg
  simp only [stage1, stage2, stage3, List.length_nil] at h1 h2 h3 ⊢
  omega

theorem length_filter_le_one_of_nodup_map {α β : Type} [DecidableEq β] (f : α → β) :
    ∀ (l : List α), (l.map f).Nodup → ∀ k : β, (l.filter (fun a => f a = k)).length ≤ 1
  | [], _, k => by simp
  | a :: tl, h, k => by
    rw [List.map_cons, List.nodup_cons] at h
    by_cases hk : f a = k
    · have hnil : tl.filter (fun a => f a = k) = [] := by
        rw [List.filter_eq_nil_iff]
        intro x hx
        simp only [decide_eq_true_eq]
        intro hxk
        exact h.1 (hk ▸ hxk ▸ List.mem_map_of_mem f hx)
      simp [List.filter_cons, hk, hnil]
    · simpa [List.filter_cons, hk] using
        length_filter_le_one_of_nodup_map f tl h.2 k

/-! ### Claims -/

/-- C1: for every execution of the pipeline the records collection never
contains two records with equal 5-tuple identity keys
`(creationDate, startDate, endDate, type, value)` — the keys of the output
rows are pairwise distinct, so any collection of observations with
identical 5-tuples yields at most one output row per tuple, uniformly
across all three parsers. -/
theorem global_dedup (inp : PipelineInput) :
    ((mainRun inp).rows.map Record.key).Nodup ∧
    (∀ k : RecKey, ((mainRun inp).rows.filter (fun r => r.key = k)).length ≤ 1) ∧
    (∀ (st : PState) (r : Record), StInv st →
      ((tryInsert st r).1.records.filter (fun x => x.key = r.key)).length = 1) := by
  have hinv := stage3_inv inp
  have hperm : List.Perm (List.mergeSort (stage3 inp).1.records startLe)
      (stage3 inp).1.records := List.mergeSort_perm _ _
  have hnd : ((mainRun inp).rows.map Record.key).Nodup :=
    ((hperm.map Record.key).nodup_iff).mpr hinv.2
  refine ⟨hnd, length_filter_le_one_of_nodup_map Record.key _ hnd, ?_⟩
  intro st r hst
  by_cases hk : r.key ∈ st.seen
  · have hmem : ∃ x ∈ st.records, x.key = r.key := by
      rw [hst.1] at hk
      simp only [List.mem_reverse] at hk
      obtain ⟨x, hx, hxk⟩ := List.mem_map.mp hk
      exact ⟨x, hx, hxk⟩
    have hle := length_filter_le_one_of_nodup_map Record.key st.records hst.2 r.key
    have hge : 0 < (st.records.filter (fun x => x.key = r.key)).length := by
      obtain ⟨x, hx, hxk⟩ := hmem
      have hxm : x ∈ st.records.filter (fun x => x.key = r.key) :=
        List.mem_filter.mpr ⟨hx, by simp [hxk]⟩
      exact List.length_pos.mpr (List.ne_nil_of_mem hxm)
    simp only [tryInsert, if_pos hk]
    omega
  · have hk2 : r.key ∉ st.records.map Record.key := by
      rw [hst.1] at hk
      simpa using hk
    have hnil : st.records.filter (fun x => x.key = r.key) = [] := by
      rw [List.filter_eq_nil_iff]
      intro x hx
      simp only [decide_eq_true_eq]
      intro hxk
      exact hk2 (hxk ▸ List.mem_map_of_mem Record.key hx)
    simp [tryInsert, hk, List.filter_append, hnil]

/-- Witness for C1: the empty starting state satisfies the invariant, and
inserting a record into it leaves exactly one row carrying its key. -/
theorem global_dedup_witness :
    StInv ⟨[], []⟩ ∧
    ((tryInsert ⟨[], []⟩ ⟨"c", "s", "e", "HKQuantityTypeIdentifierHeartRate", some "1"⟩).1.records.filter
      (fun x => x.key
        = (⟨"c", "s", "e", "HKQuantityTypeIdentifierHeartRate", some "1"⟩ : Record).key)).length = 1 :=
  ⟨⟨rfl, List.nodup_nil⟩,
   (global_dedup ⟨none, none, none⟩).2.2 ⟨[], []⟩
     ⟨"c", "s", "e", "HKQuantityTypeIdentifierHeartRate", some "1"⟩ ⟨rfl, List.nodup_nil⟩⟩

/-- C3: for every run, the rows of the merged output are in non-decreasing
lexicographic order of their `startDate` string values. -/
theorem rows_sorted_by_startDate (inp : PipelineInput) :
    List.Pairwise (fun a b : Record => a.startDate ≤ b.startDate) (mainRun inp).rows := by
  have htrans : ∀ a b c : Record, startLe a b → startLe b c → startLe a c := by
    intro a b c h1 h2
    simp only [startLe, decide_eq_true_eq] at h1 h2 ⊢
    exact le_trans h1 h2
  have htotal : ∀ a b : Record, startLe a b || startLe b a := by
    intro a b
    simp only [startLe, Bool.or_eq_true, decide_eq_true_eq]
    exact le_total _ _
  have h := List.sorted_mergeSort htrans htotal (stage3 inp).1.records
  exact h.imp (fun hab => by simpa [startLe] using hab)

/-- C4: each parser returns the number of records it personally added to the
shared collection, and for every run the sum of the three returned counts
equals the number of deduplicated records in the final output (the row
count of the written CSV, excluding its header). -/
theorem parser_counts_sum :
    (∀ (elems : List Elem) (st : PState),
      (parse_export_xml elems st).1.records.length
        = st.records.length + (parse_export_xml elems st).2) ∧
    (∀ (events : List CdaEvent) (st : PState),
      (parse_export_cda_xml events st).1.records.length
        = st.records.length + (parse_export_cda_xml events st).2) ∧
    (∀ (files : List EcgFile) (st : PState),
      (parse_ecg_files files st).1.records.length
        = st.records.length + (parse_ecg_files files st).2) ∧
    (∀ inp : PipelineInput,
      (mainRun inp).xmlCount + (mainRun inp).cdaCount + (mainRun inp).ecgCount
        = (outputCsv (mainRun inp).rows).length - 1) := by
  refine ⟨parse_export_xml_records_length, parse_export_cda_xml_records_length,
    parse_ecg_files_records_length, ?_⟩
  intro inp
  have hlen := stage3_records_length inp
  have hperm : (mainRun inp).rows.length = (stage3 inp).1.records.length :=
    (List.mergeSort_perm (stage3 inp).1.records startLe).length_eq
  have hout : (outputCsv (mainRun inp).rows).length = (mainRun inp).rows.length + 1 := by
    simp [outputCsv]
  have hx : (mainRun inp).xmlCount = (stage1 inp).2 := rfl
  have hc : (mainRun inp).cdaCount = (stage2 inp).2 := rfl
  have he : (mainRun inp).ecgCount = (stage3 inp).2 := rfl
  omega

/-- C7: a syntax-level parse failure in the clinical document aborts its
scan without raising: the records inserted before the failure are kept,
whatever follows the failure is ignored, and the parser returns exactly the
number of records it had inserted. -/
theorem cda_parse_failure_recovers (st : PState) (events junk : List CdaEvent) :
    parse_export_cda_xml (events ++ CdaEvent.parseFail :: junk) st
      = parse_export_cda_xml events st ∧
    ∃ tail, (parse_export_cda_xml events st).1.records = st.records ++ tail ∧
      (parse_export_cda_xml events st).2 = tail.length := by
  constructor
  · exact runCda_cut events st 0 junk
  · obtain ⟨t, ht, hc⟩ := runCda_extend events st 0
    exact ⟨t, ht, by simpa using hc⟩

/-- C2: the date normalizer is total and never raises: empty input returns
empty output; input shorter than 14 characters, or whose first 14
characters do not parse as `YYYYMMDDHHMMSS`, is returned unchanged; a
parseable 14-character prefix is rewritten to `YYYY-MM-DD HH:MM:SS` with
any remaining suffix appended after a single space. -/
theorem format_cda_date_spec :
    format_cda_date "" = "" ∧
    (∀ s : String, strLen s < 14 → format_cda_date s = s) ∧
    (∀ s : String, 14 ≤ strLen s → validBase (strTake s 14) = false →
      format_cda_date s = s) ∧
    (∀ s : String, 14 ≤ strLen s → validBase (strTake s 14) = true →
      format_cda_date s = formatBase (strTake s 14) ++
        (if 14 < strLen s then " " ++ strDrop s 14 else "")) ∧
    format_cda_date "20230615143000" = "2023-06-15 14:30:00" ∧
    format_cda_date "20230615143000-0500" = "2023-06-15 14:30:00 -0500" ∧
    format_cda_date "2023" = "2023" := by
  refine ⟨by decide, ?_, ?_, ?_, by decide, by decide, by decide⟩
  · intro s h
    by_cases hs : s = ""
    · subst hs; rfl
    · have h14 : ¬ 14 ≤ strLen s := by omega
      simp [format_cda_date, hs, h14]
  · intro s h14 hvb
    have hs : s ≠ "" := by
      intro he
      rw [he] at h14
      exact absurd h14 (by decide)
    simp [format_cda_date, hs, h14, hvb]
  · intro s h14 hvb
    have hs : s ≠ "" := by
      intro he
      rw [he] at h14
      exact absurd h14 (by decide)
    by_cases hlt : 14 < strLen s
    · have hdz : strDrop s 14 ≠ "" := by
        intro he
        have hd2 : s.data.drop 14 = [] := congrArg String.data he
        have hle := List.drop_eq_nil_iff.mp hd2
        simp only [strLen] at hlt
        omega
      simp [format_cda_date, hs, h14, hvb, hlt, hdz, String.append_assoc]
    · simp [format_cda_date, hs, h14, hvb, hlt]

/-- Witness for C2: the hypothesis-bearing cases of `format_cda_date_spec`
instantiated at concrete inputs (too short, invalid 14-character prefix,
valid prefix with a timezone tail). -/
theorem format_cda_date_spec_witness :
    format_cda_date "2023" = "2023" ∧
    format_cda_date "99999999999999" = "99999999999999" ∧
    format_cda_date "20230615143000-0500" = formatBase (strTake "20230615143000-0500" 14) ++
      (if 14 < strLen "20230615143000-0500" then " " ++ strDrop "20230615143000-0500" 14
       else "") :=
  ⟨format_cda_date_spec.2.1 "2023" (by decide),
   format_cda_date_spec.2.2.1 "99999999999999" (by decide) (by decide),
   format_cda_date_spec.2.2.2.1 "20230615143000-0500" (by decide) (by decide)⟩

/-- C5: in the attribute-XML parser, a point observation (`Record` element)
whose `type` attribute is missing or not in the allow-list is silently
dropped — the state is unchanged and nothing is counted — while every
`Workout` element goes to the shared dedup insert unconditionally, with its
native `workoutActivityType` string as the record's `type`. -/
theorem export_allowlist_filter :
    (∀ (st : PState) (e : Elem), e.tag = "Record" →
      (∀ t : String, e.get? "type" = some t → t ∉ TARGET_TYPES) →
      processExportElem st e = (st, 0)) ∧
    (∀ (st : PState) (e : Elem), e.tag = "Workout" →
      processExportElem st e = tryInsert st (workoutRecord e) ∧
      (workoutRecord e).type = e.getD "workoutActivityType" "") := by
  constructor
  · intro st e hR ht
    cases hg : e.get? "type" with
    | none => simp [processExportElem, hR, hg]
    | some t => simp [processExportElem, hR, hg, ht t hg]
  · intro st e hW
    have hR : e.tag ≠ "Record" := by
      rw [hW]
      decide
    exact ⟨by simp [processExportElem, hR, hW], rfl⟩

/-- Witness for C5: a `Record` element with an unknown type is dropped; a
`Workout` element is routed to the dedup insert. -/
theorem export_allowlist_filter_witness :
    processExportElem ⟨[], []⟩ ⟨"Record", [("type", "NotATargetType")]⟩ = (⟨[], []⟩, 0) ∧
    processExportElem ⟨[], []⟩ ⟨"Workout", [("workoutActivityType", "HKWorkoutActivityTypeRunning")]⟩
      = tryInsert ⟨[], []⟩
          (workoutRecord ⟨"Workout", [("workoutActivityType", "HKWorkoutActivityTypeRunning")]⟩) :=
  ⟨export_allowlist_filter.1 ⟨[], []⟩ ⟨"Record", [("type", "NotATargetType")]⟩ rfl
    (by
      intro t ht
      have h := Option.some.inj (show (some "NotATargetType" : Option String) = some t from ht)
      rw [← h]
      decide),
   (export_allowlist_filter.2 ⟨[], []⟩
     ⟨"Workout", [("workoutActivityType", "HKWorkoutActivityTypeRunning")]⟩ rfl).1⟩

/-- C6 counterexample: the claim reads the duration/calories parts as
emitted whenever the attribute is *present*; an attribute present with an
empty value refutes it (Python tests truthiness, so `duration=""` emits no
part), for both the duration and the total-energy attribute. -/
theorem workout_value_counterexample :
    workoutValue ⟨"Workout", [("duration", "")]⟩ = "" ∧
    specWorkoutValueLiteral ⟨"Workout", [("duration", "")]⟩ = "duration: min" ∧
    workoutValue ⟨"Workout", [("duration", "")]⟩
      ≠ specWorkoutValueLiteral ⟨"Workout", [("duration", "")]⟩ ∧
    workoutValue ⟨"Workout", [("totalEnergyBurned", "")]⟩ = "" ∧
    specWorkoutValueLiteral ⟨"Workout", [("totalEnergyBurned", "")]⟩ = "calories: Cal" ∧
    workoutValue ⟨"Workout", [("totalEnergyBurned", "")]⟩
      ≠ specWorkoutValueLiteral ⟨"Workout", [("totalEnergyBurned", "")]⟩ := by
  decide

/-- C6 amended: for every workout element the synthesized value equals the
claim's formula with *present* read as *present with a non-empty value*:
`duration:<duration> <durationUnit, default min>` when `duration` is
present and non-empty, `calories:<totalEnergyBurned> <totalEnergyBurnedUnit,
default Cal>` when `totalEnergyBurned` is present and non-empty, parts
joined by `'; '`, empty string otherwise; the claim's concrete example
holds. -/
theorem workout_value_amended :
    (∀ e : Elem, workoutValue e = specWorkoutValueAmended e) ∧
    workoutValue ⟨"Workout",
      [("duration", "30"), ("durationUnit", "min"),
       ("totalEnergyBurned", "250"), ("totalEnergyBurnedUnit", "Cal")]⟩
      = "duration:30 min; calories:250 Cal" ∧
    workoutValue ⟨"Workout", []⟩ = "" := by
  refine ⟨?_, by decide, by decide⟩
  intro e
  unfold workoutValue specWorkoutValueAmended
  cases hd : e.get? "duration" <;> cases he : e.get? "totalEnergyBurned" <;>
    simp [Elem.getD, hd, he]

/-- C8: for every readable session-metadata file whose parsed header yields
a non-empty recorded timestamp `d`, the parser routes the record
`(d, d, d, "ECG", classification)` through the shared dedup path, where the
classification defaults to the empty string when the `Classification`
header is absent; a failing file leaves the state unchanged and does not
abort the processing of the remaining files. -/
theorem ecg_record_synthesis :
    (∀ (st : PState) (f : EcgFile), f.fails = false →
      dictGet (ecgMetadata f) "Recorded Date" ≠ "" →
      processEcgFile st f = tryInsert st
        ⟨dictGet (ecgMetadata f) "Recorded Date", dictGet (ecgMetadata f) "Recorded Date",
         dictGet (ecgMetadata f) "Recorded Date", "ECG",
         some (dictGet (ecgMetadata f) "Classification")⟩) ∧
    (∀ m : List (String × String), m.lookup "Classification" = none →
      dictGet m "Classification" = "") ∧
    (∀ (st : PState) (f : EcgFile), f.fails = true → processEcgFile st f = (st, 0)) ∧
    (∀ (st : PState) (f : EcgFile) (rest : List EcgFile), f.fails = true →
      parse_ecg_files (f :: rest) st = parse_ecg_files rest st) := by
  refine ⟨?_, ?_, ?_, ?_⟩
  · intro st f hf hd
    simp [processEcgFile, hf, hd]
  · intro m hm
    simp [dictGet, hm]
  · intro st f hf
    simp [processEcgFile, hf]
  · intro st f rest hf
    simp [parse_ecg_files, foldP, processEcgFile, hf]

/-- Witness for C8: a one-line file with only a `Recorded Date` header
produces an ECG record with empty classification; a failing file is
skipped. -/
theorem ecg_record_synthesis_witness :
    processEcgFile ⟨[], []⟩ ⟨["Recorded Date,2023-01-02 10:00:00"], false⟩
      = tryInsert ⟨[], []⟩
          ⟨"2023-01-02 10:00:00", "2023-01-02 10:00:00", "2023-01-02 10:00:00",
           "ECG", some ""⟩ ∧
    dictGet [] "Classification" = "" ∧
    parse_ecg_files [⟨[], true⟩] ⟨[], []⟩ = parse_ecg_files [] ⟨[], []⟩ :=
  ⟨ecg_record_synthesis.1 ⟨[], []⟩ ⟨["Recorded Date,2023-01-02 10:00:00"], false⟩ rfl (by decide),
   ecg_record_synthesis.2.1 [] rfl,
   ecg_record_synthesis.2.2.2 ⟨[], []⟩ ⟨[], true⟩ [] rfl⟩

/-- C9: in the clinical-document parser an accepted observation whose
`value` element has empty text content produces a record whose value is
Python `None`, while an otherwise-identical observation with no `value`
element produces the value `''`; the two records have distinct identity
keys and are both kept, although both serialize to the same empty CSV
field. -/
theorem cda_empty_value_distinct (st : PState) (record_type : String) (et : Option CdaTime)
    (hT : record_type ∈ TARGET_TYPES) :
    (∃ r1, cdaCandidate ⟨some ⟨some (some record_type), some none⟩, et⟩ = some r1 ∧
      r1.value = none) ∧
    (∃ r2, cdaCandidate ⟨some ⟨some (some record_type), none⟩, et⟩ = some r2 ∧
      r2.value = some "") ∧
    (∀ r1 r2 : Record,
      cdaCandidate ⟨some ⟨some (some record_type), some none⟩, et⟩ = some r1 →
      cdaCandidate ⟨some ⟨some (some record_type), none⟩, et⟩ = some r2 →
      r1.key ≠ r2.key ∧
      (r1.key ∉ st.seen → r2.key ∉ st.seen →
        (processCdaObs (processCdaObs st ⟨some ⟨some (some record_type), some none⟩, et⟩).1
            ⟨some ⟨some (some record_type), none⟩, et⟩).1.records
          = st.records ++ [r1, r2]) ∧
      csvCell r1.value = "" ∧ csvCell r2.value = "") := by
  have h1 : cdaCandidate ⟨some ⟨some (some record_type), some none⟩, et⟩
      = some ⟨cdaStart et, cdaStart et, cdaEnd et, record_type, none⟩ := by
    simp [cdaCandidate, hT]
  have h2 : cdaCandidate ⟨some ⟨some (some record_type), none⟩, et⟩
      = some ⟨cdaStart et, cdaStart et, cdaEnd et, record_type, some ""⟩ := by
    simp [cdaCandidate, hT]
  refine ⟨⟨_, h1, rfl⟩, ⟨_, h2, rfl⟩, ?_⟩
  intro r1 r2 hr1 hr2
  rw [h1] at hr1
  rw [h2] at hr2
  obtain rfl := Option.some.inj hr1
  obtain rfl := Option.some.inj hr2
  refine ⟨fun hcontra => Option.noConfusion (congrArg (fun k => k.2.2.2.2) hcontra), ?_, rfl, rfl⟩
  intro hn1 hn2
  have hn1' : (cdaStart et, cdaStart et, cdaEnd et, record_type, (none : Option String))
      ∉ st.seen := hn1
  have hn2' : (cdaStart et, cdaStart et, cdaEnd et, record_type, (some "" : Option String))
      ∉ st.seen := hn2
  have hne : ((cdaStart et, cdaStart et, cdaEnd et, record_type, (some "" : Option String)) : RecKey)
      ≠ (cdaStart et, cdaStart et, cdaEnd et, record_type, none) :=
    fun hcc => Option.noConfusion (congrArg (fun k => k.2.2.2.2) hcc)
  simp [processCdaObs, h1, h2, tryInsert, hn1', hn2', hne, Record.key]

/-- Witness for C9: from the empty state, an observation with an empty
`value` element followed by one with no `value` element yields two records,
with Python `None` and `''` values respectively. -/
theorem cda_empty_value_distinct_witness :
    (processCdaObs
        (processCdaObs ⟨[], []⟩
          ⟨some ⟨some (some "HKQuantityTypeIdentifierHeartRate"), some none⟩, none⟩).1
        ⟨some ⟨some (some "HKQuantityTypeIdentifierHeartRate"), none⟩, none⟩).1.records
      = [⟨"", "", "", "HKQuantityTypeIdentifierHeartRate", none⟩,
         ⟨"", "", "", "HKQuantityTypeIdentifierHeartRate", some ""⟩] := by
  have h := (cda_empty_value_distinct ⟨[], []⟩ "HKQuantityTypeIdentifierHeartRate" none
      (by decide)).2.2
    ⟨"", "", "", "HKQuantityTypeIdentifierHeartRate", none⟩
    ⟨"", "", "", "HKQuantityTypeIdentifierHeartRate", some ""⟩ (by decide) (by decide)
  simpa using h.2.1 (by decide) (by decide)

/-- C10: whenever the dedup index mirrors the records collection — which
holds initially and is preserved by every loop body of all three parsers —
the index and the collection are in bijection: their sizes agree and every
record's 5-tuple key is a member of the index. -/
theorem records_seen_bijection (st : PState) (h : SeenInv st) :
    (st.seen.length = st.records.length ∧ ∀ r ∈ st.records, r.key ∈ st.seen) ∧
    (∀ e : Elem, SeenInv (processExportElem st e).1) ∧
    (∀ o : CdaObs, SeenInv (processCdaObs st o).1) ∧
    (∀ f : EcgFile, SeenInv (processEcgFile st f).1) := by
  refine ⟨⟨?_, ?_⟩, ?_, ?_, ?_⟩
  · rw [h]
    simp
  · intro r hr
    rw [h]
    exact List.mem_reverse.mpr (List.mem_map_of_mem Record.key hr)
  · exact fun e => step_seenInv stepSound_processExportElem st e h
  · exact fun o => step_seenInv stepSound_processCdaObs st o h
  · exact fun f => step_seenInv stepSound_processEcgFile st f h

/-- Witness for C10: the empty starting state of `main` satisfies the
mirror invariant, and one parser step preserves it. -/
theorem records_seen_bijection_witness :
    ((⟨[], []⟩ : PState).seen.length = (⟨[], []⟩ : PState).records.length) ∧
    SeenInv (processExportElem ⟨[], []⟩ ⟨"Workout", []⟩).1 :=
  ⟨(records_seen_bijection ⟨[], []⟩ rfl).1.1,
   (records_seen_bijection ⟨[], []⟩ rfl).2.1 ⟨"Workout", []⟩⟩

end Health
